import Mathlib

/-!
Verification of the screen-annotation application's core engine.

The definitions below are shallow embeddings of the TypeScript source:

* `ScreenAnnotationApp` (the full variant, with object log, hit testing,
  drag-to-move and raster history) provides `saveState` / `undo` / `redo`,
  `hitTestObject`, `moveObject`, `calculateStrokeBounds`,
  `calculateShapeBounds` and `calculateTextBounds`, plus the shape
  renderers `drawArrow` / `drawStar` (embedded here as `drawArrowApp` /
  `drawStarApp`).
* `WhiteboardApp` (`whiteboard-app.ts`) has its own `drawArrow` /
  `drawStar` (embedded as `drawArrowWb` / `drawStarWb`), whose head-length
  and radius formulas differ from the first app's.

Numbers are modelled exactly over a linear ordered field (instantiated at
`ℚ` for executable witnesses and at `ℝ` when trigonometry is needed);
the transcendental functions used by the renderers are passed in as an
explicit `RealOps` record, instantiated with the genuine real functions.
-/

/-- The tool ids of the `Tool` union type in the source. -/
inductive Tool where
  | brush | select | eraser | text | magnifier | highlighter | laserPointer
  | arrow | rectangle | circle | line | roundRect | star
deriving DecidableEq, Repr

/-- The discriminant of `DrawObject.type`: `'brush' | 'shape' | 'text'`. -/
inductive DrawKind where
  | brush | shape | text
deriving DecidableEq, Repr

/-- A bounding box `{ x, y, width, height }`. -/
structure Bounds (F : Type) where
  x : F
  y : F
  width : F
  height : F
deriving DecidableEq, Repr

/-- The `DrawObject` interface: a tagged record with optional fields, as in
the source (`points` for brush strokes, `startX`..`endY` for shapes,
`text`/`fontSize`/`x`/`y` for text, `bounds` for hit testing). -/
structure DrawObject (F : Type) where
  type : DrawKind
  tool : Tool
  color : String
  size : F
  points : Option (List (F × F))
  startX : Option F
  startY : Option F
  endX : Option F
  endY : Option F
  text : Option String
  fontSize : Option F
  x : Option F
  y : Option F
  bounds : Option (Bounds F)
deriving DecidableEq, Repr

variable {F : Type} [LinearOrderedField F]

/-- The padded containment test inside `hitTestObject`: the box is grown by
the fixed `padding = 10` on all four sides. -/
def boundsHit (b : Bounds F) (x y : F) : Bool :=
  decide (b.x - 10 ≤ x ∧ x ≤ b.x + b.width + 10 ∧
          b.y - 10 ≤ y ∧ y ≤ b.y + b.height + 10)

/-- The body of the `for (let i = length - 1; i >= 0; i--)` loop of
`hitTestObject`, expressed on the already-reversed list: objects without
`bounds` are skipped, the first padded hit is returned. -/
def hitScan (x y : F) : List (DrawObject F) → Option (DrawObject F)
  | [] => none
  | o :: rest =>
    match o.bounds with
    | some b => if boundsHit b x y then some o else hitScan x y rest
    | none => hitScan x y rest

/-- `hitTestObject(x, y)`: scan the object log from the most recent object
backwards and return the first object whose padded bounds contain the
point, or `none`. -/
def hitTestObject (objs : List (DrawObject F)) (x y : F) : Option (DrawObject F) :=
  hitScan x y objs.reverse

/-- `moveObject(obj, deltaX, deltaY)`: translate the geometry owned by the
object (all points of a brush stroke, the endpoints of a shape, the origin
of a text) and shift the bounds by the same delta. -/
def moveObject (obj : DrawObject F) (dx dy : F) : DrawObject F :=
  let o1 :=
    match obj.type, obj.points with
    | DrawKind.brush, some ps =>
        { obj with points := some (ps.map fun p : F × F => (p.1 + dx, p.2 + dy)) }
    | DrawKind.brush, none => obj
    | DrawKind.shape, _ =>
        { obj with
          startX := obj.startX.map (· + dx)
          startY := obj.startY.map (· + dy)
          endX := obj.endX.map (· + dx)
          endY := obj.endY.map (· + dy) }
    | DrawKind.text, _ =>
        { obj with x := obj.x.map (· + dx), y := obj.y.map (· + dy) }
  match o1.bounds with
  | some b => { o1 with bounds := some { b with x := b.x + dx, y := b.y + dy } }
  | none => o1

/-- `calculateStrokeBounds(points, size)`: min/max over all points
(initialised from `points[0]`), padded by `size / 2` on each side. -/
def calculateStrokeBounds : List (F × F) → F → Bounds F
  | [], _ => ⟨0, 0, 0, 0⟩
  | p0 :: rest, size =>
    let minX := (p0 :: rest).foldl (fun m p => min m p.1) p0.1
    let minY := (p0 :: rest).foldl (fun m p => min m p.2) p0.2
    let maxX := (p0 :: rest).foldl (fun m p => max m p.1) p0.1
    let maxY := (p0 :: rest).foldl (fun m p => max m p.2) p0.2
    let padding := size / 2
    ⟨minX - padding, minY - padding,
     maxX - minX + padding * 2, maxY - minY + padding * 2⟩

/-- `calculateShapeBounds(startX, startY, endX, endY, tool)`: the plain
min/max corner box of the two drag points; the `tool` argument is unused,
and no stroke-width padding is applied. -/
def calculateShapeBounds (startX startY endX endY : F) (_tool : Tool) : Bounds F :=
  ⟨min startX endX, min startY endY,
   max startX endX - min startX endX, max startY endY - min startY endY⟩

/-- `calculateTextBounds(text, x, y, fontSize)`: width is the maximum
measured line width (the canvas `measureText` is abstracted as the
`measure` argument), height is `lines.length * fontSize * 1.2`. -/
def calculateTextBounds (measure : String → F) (text : String) (x y fontSize : F) :
    Bounds F :=
  let lines := text.splitOn "\n"
  let maxWidth := lines.foldl (fun m line => max m (measure line)) 0
  ⟨x, y, maxWidth, (lines.length : F) * fontSize * 1.2⟩

/-- Modelled from the spec: the minimal axis-aligned box enclosing a list
of points (degenerate `⟨0,0,0,0⟩` for the empty list). -/
def minimalBox : List (F × F) → Bounds F
  | [] => ⟨0, 0, 0, 0⟩
  | p :: rest =>
    let minX := ((p :: rest).map Prod.fst).foldl min p.1
    let minY := ((p :: rest).map Prod.snd).foldl min p.2
    let maxX := ((p :: rest).map Prod.fst).foldl max p.1
    let maxY := ((p :: rest).map Prod.snd).foldl max p.2
    ⟨minX, minY, maxX - minX, maxY - minY⟩

/-- Modelled from the spec: a box expanded by `pad` on all four sides. -/
def expandBox (b : Bounds F) (pad : F) : Bounds F :=
  ⟨b.x - pad, b.y - pad, b.width + 2 * pad, b.height + 2 * pad⟩

/-- A box translated by `(dx, dy)`. -/
def shiftBounds (b : Bounds F) (dx dy : F) : Bounds F :=
  ⟨b.x + dx, b.y + dy, b.width, b.height⟩

/-- A point lies inside a box. -/
def containsPoint (b : Bounds F) (p : F × F) : Prop :=
  b.x ≤ p.1 ∧ p.1 ≤ b.x + b.width ∧ b.y ≤ p.2 ∧ p.2 ≤ b.y + b.height

/-! ## History manager (`saveState` / `undo` / `redo`) -/

/-- The per-app undo history: the snapshot list `history`, the cursor
`historyStep` (an integer, initially `-1`), and the current raster
`surface` (the canvas pixels, abstracted to an arbitrary type). -/
structure Hist (α : Type) where
  history : List α
  step : ℤ
  surface : α
deriving DecidableEq, Repr

/-- JavaScript `array.slice(0, e)` with a possibly negative end index. -/
def jsSliceTo {α : Type} (l : List α) (e : ℤ) : List α :=
  if 0 ≤ e then l.take e.toNat else l.take ((l.length : ℤ) + e).toNat

/-- JavaScript `array[i]` under the guards used by `undo`/`redo` (in-range
access; out of range yields the default, where the code would see
`undefined`). -/
def jsGetD {α : Type} [Inhabited α] (l : List α) (i : ℤ) : α :=
  if h : 0 ≤ i ∧ i.toNat < l.length then l.get ⟨i.toNat, h.2⟩ else default

/-- `saveState()`: truncate past the cursor, push the current surface,
advance the cursor, and if more than 50 entries remain evict the oldest
(`shift()`) while pulling the cursor back by one. -/
def saveState {α : Type} (st : Hist α) : Hist α :=
  let h1 := jsSliceTo st.history (st.step + 1)
  let h2 := h1 ++ [st.surface]
  let s2 := st.step + 1
  if 50 < h2.length then ⟨h2.drop 1, s2 - 1, st.surface⟩ else ⟨h2, s2, st.surface⟩

/-- `undo()`: a no-op when the cursor is at (or below) the first entry;
otherwise step back and restore that snapshot onto the surface. -/
def undo {α : Type} [Inhabited α] (st : Hist α) : Hist α :=
  if st.step ≤ 0 then st
  else ⟨st.history, st.step - 1, jsGetD st.history (st.step - 1)⟩

/-- `redo()`: a no-op when the cursor is at (or beyond) the last entry;
otherwise step forward and restore that snapshot onto the surface. -/
def redo {α : Type} [Inhabited α] (st : Hist α) : Hist α :=
  if (st.history.length : ℤ) - 1 ≤ st.step then st
  else ⟨st.history, st.step + 1, jsGetD st.history (st.step + 1)⟩

/-- One committed mutation: the raster is mutated to `s` (stroke drawn,
shape stamped, text rendered, object moved, ...) and `saveState()` runs. -/
def commit {α : Type} (s : α) (st : Hist α) : Hist α :=
  saveState { st with surface := s }

/-- A whole sequence of committed mutations, oldest first. -/
def commitAll {α : Type} (ss : List α) (st : Hist α) : Hist α :=
  ss.foldl (fun st s => commit s st) st

/-- The state right after the constructor: empty history, cursor `-1`,
initial surface `s0`, followed by the constructor's `saveState()` call. -/
def initState {α : Type} (s0 : α) : Hist α :=
  saveState ⟨[], -1, s0⟩

/-! ## Shape renderers (`drawArrow`, `drawStar`) -/

/-- The transcendental functions the renderers call (`Math.sqrt`,
`Math.cos`, `Math.sin`, `Math.atan2`, `Math.PI`), kept abstract so the
geometry can be stated over any ordered field and instantiated with the
genuine real functions. -/
structure RealOps (F : Type) where
  sqrt : F → F
  cos : F → F
  sin : F → F
  atan2 : F → F → F
  pi : F

/-- A drawn segment: `(moveTo p₁, lineTo p₂)`. -/
abbrev Seg (F : Type) := (F × F) × (F × F)

/-- The three segments stroked by either `drawArrow`. -/
structure ArrowTrace (F : Type) where
  shaft : Seg F
  head1 : Seg F
  head2 : Seg F

/-- `drawArrow` of the screen-annotation app: head length `20 + size * 2`,
head segments at `angle ± π/6` back from the tip. -/
def drawArrowApp (m : RealOps F) (size x1 y1 x2 y2 : F) : ArrowTrace F :=
  let headLength := 20 + size * 2
  let angle := m.atan2 (y2 - y1) (x2 - x1)
  { shaft := ((x1, y1), (x2, y2))
    head1 := ((x2, y2),
      (x2 - headLength * m.cos (angle - m.pi / 6),
       y2 - headLength * m.sin (angle - m.pi / 6)))
    head2 := ((x2, y2),
      (x2 - headLength * m.cos (angle + m.pi / 6),
       y2 - headLength * m.sin (angle + m.pi / 6))) }

/-- `drawArrow` of the whiteboard app: head length `max(15, size * 3)`,
head segments at `angle ± π/6` back from the tip. -/
def drawArrowWb (m : RealOps F) (size x1 y1 x2 y2 : F) : ArrowTrace F :=
  let headLength := max 15 (size * 3)
  let angle := m.atan2 (y2 - y1) (x2 - x1)
  { shaft := ((x1, y1), (x2, y2))
    head1 := ((x2, y2),
      (x2 - headLength * m.cos (angle - m.pi / 6),
       y2 - headLength * m.sin (angle - m.pi / 6)))
    head2 := ((x2, y2),
      (x2 - headLength * m.cos (angle + m.pi / 6),
       y2 - headLength * m.sin (angle + m.pi / 6))) }

/-- Modelled from the spec: arrow = segment plus two head segments at
`±30°` from the shaft angle, head length `max(15, strokeWidth * 3)`. -/
def specArrow (m : RealOps F) (strokeWidth x1 y1 x2 y2 : F) : ArrowTrace F :=
  let headLen := max 15 (strokeWidth * 3)
  let shaftAngle := m.atan2 (y2 - y1) (x2 - x1)
  { shaft := ((x1, y1), (x2, y2))
    head1 := ((x2, y2),
      (x2 - headLen * m.cos (shaftAngle - m.pi / 6),
       y2 - headLen * m.sin (shaftAngle - m.pi / 6)))
    head2 := ((x2, y2),
      (x2 - headLen * m.cos (shaftAngle + m.pi / 6),
       y2 - headLen * m.sin (shaftAngle + m.pi / 6))) }

/-- `drawStar` of the screen-annotation app: radius `min(|dx|, |dy|) / 2`,
inner radius `0.4 *` that, ten vertices at `i*π/5 - π/2`. -/
def drawStarApp (m : RealOps F) (x1 y1 x2 y2 : F) : List (F × F) :=
  let centerX := (x1 + x2) / 2
  let centerY := (y1 + y2) / 2
  let radius := min |x2 - x1| |y2 - y1| / 2
  let outerRadius := radius
  let innerRadius := radius * 0.4
  (List.range 10).map fun i : ℕ =>
    let angle := ((i : F) * m.pi) / 5 - m.pi / 2
    let r := if i % 2 = 0 then outerRadius else innerRadius
    (centerX + r * m.cos angle, centerY + r * m.sin angle)

/-- `drawStar` of the whiteboard app: outer radius
`sqrt((x2-x1)² + (y2-y1)²) / 2`, inner radius `0.4 *` that, ten vertices
at `i*π/5 - π/2`. -/
def drawStarWb (m : RealOps F) (x1 y1 x2 y2 : F) : List (F × F) :=
  let centerX := (x1 + x2) / 2
  let centerY := (y1 + y2) / 2
  let outerRadius := m.sqrt ((x2 - x1) ^ 2 + (y2 - y1) ^ 2) / 2
  let innerRadius := outerRadius * 0.4
  (List.range 10).map fun i : ℕ =>
    let radius := if i % 2 = 0 then outerRadius else innerRadius
    let angle := ((i : F) * m.pi) / 5 - m.pi / 2
    (centerX + radius * m.cos angle, centerY + radius * m.sin angle)

/-- Modelled from the spec: 5-point star, center = midpoint of the drag
box, outer radius = half the diagonal length of the drag box, inner radius
`0.4 * outer`, vertices alternating outer/inner at 36° increments starting
from the top. -/
def specStar (m : RealOps F) (x1 y1 x2 y2 : F) : List (F × F) :=
  let cx := (x1 + x2) / 2
  let cy := (y1 + y2) / 2
  let outer := m.sqrt ((x2 - x1) ^ 2 + (y2 - y1) ^ 2) / 2
  let inner := 0.4 * outer
  (List.range 10).map fun i : ℕ =>
    let r := if i % 2 = 0 then outer else inner
    let angle := ((i : F) * m.pi) / 5 - m.pi / 2
    (cx + r * m.cos angle, cy + r * m.sin angle)

/-- Squared euclidean distance between two points. -/
def sqDist (p q : F × F) : F :=
  (p.1 - q.1) ^ 2 + (p.2 - q.2) ^ 2

/-- JavaScript `Math.atan2(y, x)`. -/
noncomputable def atan2R (y x : ℝ) : ℝ :=
  if 0 < x then Real.arctan (y / x)
  else if x < 0 then
    (if 0 ≤ y then Real.arctan (y / x) + Real.pi else Real.arctan (y / x) - Real.pi)
  else
    (if 0 < y then Real.pi / 2 else if y < 0 then -(Real.pi / 2) else 0)

/-- The genuine real-valued operations behind `Math.sqrt` etc. -/
noncomputable def realOps : RealOps ℝ :=
  { sqrt := Real.sqrt
    cos := Real.cos
    sin := Real.sin
    atan2 := atan2R
    pi := Real.pi }

/-! ## Helper lemmas about translation -/

lemma optShift_shift (a : Option F) (d1 d2 : F) :
    (a.map (· + d1)).map (· + d2) = a.map (· + (d1 + d2)) := by
  cases a <;> simp [add_assoc]

lemma ptsShift_shift (ps : List (F × F)) (dx1 dy1 dx2 dy2 : F) :
    ((ps.map fun p : F × F => (p.1 + dx1, p.2 + dy1)).map
        fun p : F × F => (p.1 + dx2, p.2 + dy2)) =
      ps.map fun p : F × F => (p.1 + (dx1 + dx2), p.2 + (dy1 + dy2)) := by
  rw [List.map_map]
  refine List.map_congr_left fun p _ => ?_
  simp [Function.comp, add_assoc]

/-- C8: moving an object twice equals one move by the summed deltas. -/
theorem C8_move_affine_law (o : DrawObject F) (dx1 dy1 dx2 dy2 : F) :
    moveObject (moveObject o dx1 dy1) dx2 dy2 =
      moveObject o (dx1 + dx2) (dy1 + dy2) := by
  obtain ⟨ty, tool, color, size, points, sx, sy, ex, ey, tx, fs, x, y, bounds⟩ := o
  cases ty <;> cases points <;> cases bounds <;>
    simp [moveObject, optShift_shift, ptsShift_shift, add_assoc]

/-- C10: `moveObject` changes only position data; the object's kind, tool,
color, size, text, font size and the bounds' width and height are
untouched. -/
theorem C10_move_frame (o : DrawObject F) (dx dy : F) :
    (moveObject o dx dy).type = o.type ∧
    (moveObject o dx dy).tool = o.tool ∧
    (moveObject o dx dy).color = o.color ∧
    (moveObject o dx dy).size = o.size ∧
    (moveObject o dx dy).text = o.text ∧
    (moveObject o dx dy).fontSize = o.fontSize ∧
    (moveObject o dx dy).bounds.map (fun b => b.width) = o.bounds.map (fun b => b.width) ∧
    (moveObject o dx dy).bounds.map (fun b => b.height) = o.bounds.map (fun b => b.height) := by
  obtain ⟨ty, tool, color, size, points, sx, sy, ex, ey, tx, fs, x, y, bounds⟩ := o
  cases ty <;> cases points <;> cases bounds <;> simp [moveObject]

/-! ## Hit testing -/

/-- The predicate `hitTestObject` checks per object: it has bounds and the
padded bounds contain the point. -/
def hittable (x y : F) (o : DrawObject F) : Bool :=
  match o.bounds with
  | some b => boundsHit b x y
  | none => false

lemma hitScan_eq_find? (x y : F) (l : List (DrawObject F)) :
    hitScan x y l = l.find? (hittable x y) := by
  induction l with
  | nil => rfl
  | cons o rest ih =>
    cases h : o.bounds with
    | some b =>
      by_cases hb : boundsHit b x y = true
      · rw [hitScan, h]
        simp only [hb, if_true]
        rw [List.find?_cons_of_pos _ (by simp [hittable, h, hb])]
      · rw [hitScan, h]
        simp only [hb, if_false, Bool.false_eq_true]
        rw [List.find?_cons_of_neg _ (by simp [hittable, h, hb]), ih]
    | none =>
      rw [hitScan, h, List.find?_cons_of_neg _ (by simp [hittable, h]), ih]

/-- C5: `hitTestObject` scans the log in reverse insertion order and
returns the first object whose 10px-padded bounding box contains the
point (or `none`); in particular a newer object wins over any older ones,
and if nothing is hit the result is `none`. -/
theorem C5_hit_test_topmost :
    (∀ (objs : List (DrawObject F)) (x y : F),
        hitTestObject objs x y = objs.reverse.find? (hittable x y)) ∧
    (∀ (b : Bounds F) (x y : F),
        boundsHit b x y = true ↔
          (b.x - 10 ≤ x ∧ x ≤ b.x + b.width + 10 ∧
           b.y - 10 ≤ y ∧ y ≤ b.y + b.height + 10)) ∧
    (∀ (older : List (DrawObject F)) (B : DrawObject F) (x y : F),
        hittable x y B = true → hitTestObject (older ++ [B]) x y = some B) ∧
    (∀ (objs : List (DrawObject F)) (x y : F),
        (∀ o ∈ objs, hittable x y o = false) → hitTestObject objs x y = none) := by
  refine ⟨fun objs x y => hitScan_eq_find? x y _, fun b x y => ?_, ?_, ?_⟩
  · simp [boundsHit]
  · intro older B x y hB
    rw [hitTestObject, hitScan_eq_find?, List.reverse_append]
    simp only [List.reverse_singleton, List.singleton_append]
    exact List.find?_cons_of_pos _ hB
  · intro objs x y hnone
    rw [hitTestObject, hitScan_eq_find?]
    refine List.find?_eq_none.mpr fun o ho => ?_
    simp [hnone o (List.mem_reverse.mp ho)]

/-- An older committed shape whose padded box contains the probe point. -/
def objA : DrawObject ℚ :=
  { type := DrawKind.shape, tool := Tool.rectangle, color := "red", size := 5,
    points := none, startX := some 0, startY := some 0, endX := some 20,
    endY := some 20, text := none, fontSize := none, x := none, y := none,
    bounds := some ⟨0, 0, 20, 20⟩ }

/-- A newer committed shape overlapping `objA`. -/
def objB : DrawObject ℚ :=
  { type := DrawKind.shape, tool := Tool.rectangle, color := "blue", size := 5,
    points := none, startX := some 10, startY := some 10, endX := some 30,
    endY := some 30, text := none, fontSize := none, x := none, y := none,
    bounds := some ⟨10, 10, 20, 20⟩ }

/-- Witness for C5 at a concrete overlap: the newer object wins, and a far
probe point hits nothing. -/
theorem C5_hit_test_topmost_witness :
    hitTestObject [objA, objB] 15 15 = some objB ∧
    hitTestObject [objA] 1000 1000 = none :=
  ⟨C5_hit_test_topmost.2.2.1 [objA] objB 15 15
      (by norm_num [hittable, objB, boundsHit]),
   C5_hit_test_topmost.2.2.2 [objA] 1000 1000
      (by intro o ho
          rw [List.mem_singleton] at ho
          subst ho
          norm_num [hittable, objA, boundsHit])⟩

/-- A text object with a present but zero-area bounding box. -/
def degObj : DrawObject ℚ :=
  { type := DrawKind.text, tool := Tool.text, color := "red", size := 5,
    points := none, startX := none, startY := none, endX := none, endY := none,
    text := some "", fontSize := some 24, x := some 0, y := some 0,
    bounds := some ⟨0, 0, 0, 0⟩ }

/-- C9 counterexample: a zero-area bounding box is still hittable — the
10px padding makes `hitTestObject` return the degenerate object at its own
corner, contradicting "never returns that object". -/
theorem C9_degenerate_cex : hitTestObject [degObj] 0 0 = some degObj := by
  rw [hitTestObject, List.reverse_singleton]
  norm_num [hitScan, degObj, boundsHit]

/-- C9 (amended): only objects *without* stored bounds are never hittable;
an object with zero-area bounds is returned whenever the probe is inside
the 10px padding, and hit-testing/moving such objects is total (the move
still just shifts the stored bounds). -/
theorem C9_degenerate_amended :
    (∀ (objs : List (DrawObject F)) (x y : F) (o : DrawObject F),
        hitTestObject objs x y = some o → o.bounds ≠ none) ∧
    (∀ (o : DrawObject F) (b : Bounds F) (x y : F),
        o.bounds = some b → b.width = 0 → b.height = 0 →
        boundsHit b x y = true → hitTestObject [o] x y = some o) ∧
    (∀ (o : DrawObject F) (dx dy : F),
        (moveObject o dx dy).bounds =
          o.bounds.map (fun b => shiftBounds b dx dy)) := by
  refine ⟨?_, ?_, ?_⟩
  · intro objs x y o h
    rw [hitTestObject, hitScan_eq_find?] at h
    have hp := List.find?_some h
    intro hb
    rw [hittable, hb] at hp
    exact absurd hp (by simp)
  · intro o b x y hb _ _ hhit
    rw [hitTestObject]
    simp only [List.reverse_singleton]
    rw [hitScan, hb]
    simp [hhit]
  · intro o dx dy
    obtain ⟨ty, tool, color, size, points, sx, sy, ex, ey, tx, fs, x, y, bounds⟩ := o
    cases ty <;> cases points <;> cases bounds <;> simp [moveObject, shiftBounds]

/-- Witness for C9 (amended) at concrete objects. -/
theorem C9_degenerate_amended_witness :
    objB.bounds ≠ none ∧
    hitTestObject [degObj] 5 5 = some degObj ∧
    (moveObject degObj 1 2).bounds =
      degObj.bounds.map (fun b => shiftBounds b 1 2) :=
  ⟨C9_degenerate_amended.1 [objB] 15 15 objB
      (by rw [hitTestObject, List.reverse_singleton]
          norm_num [hitScan, objB, boundsHit]),
   C9_degenerate_amended.2.1 degObj ⟨0, 0, 0, 0⟩ 5 5 rfl rfl rfl
     (by norm_num [boundsHit]),
   C9_degenerate_amended.2.2 degObj 1 2⟩

/-! ## History lemmas -/

@[simp] lemma commitAll_nil {α : Type} (st : Hist α) : commitAll [] st = st := rfl

@[simp] lemma commitAll_cons {α : Type} (s : α) (ss : List α) (st : Hist α) :
    commitAll (s :: ss) st = commitAll ss (commit s st) := rfl

lemma initState_eq {α : Type} (s0 : α) : initState s0 = ⟨[s0], 0, s0⟩ := by
  unfold initState saveState jsSliceTo
  norm_num

/-- After committing on top of a saturated-or-not history whose underlying
full snapshot sequence is `L`, the state is again of the same shape for
`L ++ [s]`: the kept entries are the last `min |L| 50` snapshots and the
cursor sits on the final entry. -/
lemma commit_stateOf {α : Type} (L : List α) (hL : L ≠ []) (s surf : α) :
    commit s ⟨L.drop (L.length - 50), ((min L.length 50 : ℕ) : ℤ) - 1, surf⟩ =
      ⟨(L ++ [s]).drop (L.length + 1 - 50),
       ((min (L.length + 1) 50 : ℕ) : ℤ) - 1, s⟩ := by
  have hlen : 1 ≤ L.length := List.length_pos.mpr hL
  have hk1 : 1 ≤ min L.length 50 := le_min hlen (by norm_num)
  have hdroplen : (L.drop (L.length - 50)).length = min L.length 50 := by
    rw [List.length_drop]
    rcases le_total L.length 50 with h | h
    · rw [min_eq_left h]; omega
    · rw [min_eq_right h]; omega
  have htn : ∀ n : ℕ, 1 ≤ n → (((n : ℕ) : ℤ) - 1 + 1).toNat = n := by
    intro n hn; omega
  unfold commit saveState
  simp only []
  have he : (0 : ℤ) ≤ ((min L.length 50 : ℕ) : ℤ) - 1 + 1 := by
    have := hk1; omega
  have hslice :
      jsSliceTo (L.drop (L.length - 50)) (((min L.length 50 : ℕ) : ℤ) - 1 + 1) =
        L.drop (L.length - 50) := by
    rw [jsSliceTo, if_pos he, htn _ hk1, ← hdroplen, List.take_length]
  rw [hslice]
  by_cases h50 : 50 ≤ L.length
  · have hm : min L.length 50 = 50 := min_eq_right h50
    have hm1 : min (L.length + 1) 50 = 50 := min_eq_right (by omega)
    rw [if_pos (by rw [List.length_append, hdroplen, hm]; norm_num)]
    have hhist : (L.drop (L.length - 50) ++ [s]).drop 1 =
        (L ++ [s]).drop (L.length + 1 - 50) := by
      rw [List.drop_append_of_le_length (by rw [hdroplen, hm]; omega),
          List.drop_drop]
      rw [List.drop_append_of_le_length (by omega : L.length + 1 - 50 ≤ L.length)]
      have hidx : L.length - 50 + 1 = L.length + 1 - 50 := by omega
      rw [hidx]
    rw [hhist]
    congr 1
    rw [hm, hm1]
    ring
  · have hm : min L.length 50 = L.length := min_eq_left (by omega)
    have hm1 : min (L.length + 1) 50 = L.length + 1 := min_eq_left (by omega)
    rw [if_neg (by rw [List.length_append, hdroplen, hm]; simp; omega)]
    have hdrop0 : L.drop (L.length - 50) = L := by
      have h0 : L.length - 50 = 0 := by omega
      rw [h0, List.drop_zero]
    have hdrop0' : (L ++ [s]).drop (L.length + 1 - 50) = L ++ [s] := by
      have h0 : L.length + 1 - 50 = 0 := by omega
      rw [h0, List.drop_zero]
    rw [hdrop0, hdrop0']
    congr 1
    rw [hm, hm1]
    push_cast
    ring

/-- Iterating `commit` over a list of surfaces, starting from a state of
the canonical shape for snapshot sequence `L`, lands in the canonical
shape for `L ++ ss`. -/
lemma commitAll_stateOf {α : Type} (ss : List α) :
    ∀ (L : List α), L ≠ [] → ∀ surf : α,
      commitAll ss ⟨L.drop (L.length - 50), ((min L.length 50 : ℕ) : ℤ) - 1, surf⟩ =
        ⟨(L ++ ss).drop ((L ++ ss).length - 50),
         ((min (L ++ ss).length 50 : ℕ) : ℤ) - 1, ss.getLastD surf⟩ := by
  induction ss with
  | nil => intro L hL surf; simp
  | cons s rest ih =>
    intro L hL surf
    rw [commitAll_cons, commit_stateOf L hL s surf]
    have hshape :
        (⟨(L ++ [s]).drop (L.length + 1 - 50),
          ((min (L.length + 1) 50 : ℕ) : ℤ) - 1, s⟩ : Hist α) =
          ⟨(L ++ [s]).drop ((L ++ [s]).length - 50),
           ((min (L ++ [s]).length 50 : ℕ) : ℤ) - 1, s⟩ := by
      rw [List.length_append, List.length_singleton]
    rw [hshape, ih (L ++ [s]) (by simp) s]
    rw [List.append_cons L s rest, List.getLastD_cons]

/-- C6: sixty commits after the constructor's initial snapshot leave
exactly 50 history entries — the last 50 of the 61 snapshots — with the
cursor on the most recent entry (`step = 49 = length - 1`) and the surface
equal to the last committed snapshot. -/
theorem C6_history_cap {α : Type} (s0 : α) (ss : List α) (h : ss.length = 60) :
    (commitAll ss (initState s0)).history.length = 50 ∧
    (commitAll ss (initState s0)).step = 49 ∧
    (commitAll ss (initState s0)).step =
      ((commitAll ss (initState s0)).history.length : ℤ) - 1 ∧
    (commitAll ss (initState s0)).history = (s0 :: ss).drop 11 ∧
    (commitAll ss (initState s0)).surface = ss.getLastD s0 := by
  have h1 : initState s0 =
      (⟨[s0].drop ([s0].length - 50), ((min [s0].length 50 : ℕ) : ℤ) - 1, s0⟩ :
        Hist α) := by
    rw [initState_eq]
    norm_num
  rw [h1, commitAll_stateOf ss [s0] (by simp) s0]
  have hlen : ([s0] ++ ss).length = 61 := by simp [h]
  rw [List.singleton_append] at hlen ⊢
  rw [hlen]
  refine ⟨?_, by norm_num, ?_, rfl, rfl⟩
  · rw [List.length_drop, List.length_cons, h]
  · rw [List.length_drop, List.length_cons, h]
    norm_num

/-- Witness for C6 at sixty concrete commits. -/
theorem C6_history_cap_witness :
    (commitAll (List.range 60) (initState 0)).history.length = 50 ∧
    (commitAll (List.range 60) (initState 0)).step = 49 ∧
    (commitAll (List.range 60) (initState (0 : ℕ))).step =
      ((commitAll (List.range 60) (initState 0)).history.length : ℤ) - 1 ∧
    (commitAll (List.range 60) (initState 0)).history =
      ((0 : ℕ) :: List.range 60).drop 11 ∧
    (commitAll (List.range 60) (initState 0)).surface =
      (List.range 60).getLastD 0 :=
  C6_history_cap 0 (List.range 60) (by simp)

/-- Repeated `undo` saturates at the first entry: after `n` undos the
cursor is `max (step - n) 0` and the surface is that snapshot. -/
lemma undo_iter {α : Type} [Inhabited α] (n : ℕ) (st : Hist α)
    (h0 : 0 ≤ st.step) (h1 : st.step < (st.history.length : ℤ))
    (hs : st.surface = jsGetD st.history st.step) :
    undo^[n] st =
      ⟨st.history, max (st.step - n) 0, jsGetD st.history (max (st.step - n) 0)⟩ := by
  induction n with
  | zero =>
    obtain ⟨H, stp, sur⟩ := st
    simp only [Function.iterate_zero, id_eq] at *
    have hmax : max (stp - ((0 : ℕ) : ℤ)) 0 = stp := by push_cast; omega
    rw [hmax, ← hs]
  | succ n ih =>
    rw [Function.iterate_succ_apply', ih]
    by_cases hc : st.step - (n : ℤ) ≤ 0
    · rw [undo, if_pos (by simp only []; omega)]
      have hmax : max (st.step - ((n : ℕ) : ℤ)) 0 = max (st.step - ((n + 1 : ℕ) : ℤ)) 0 := by
        push_cast at *
        omega
      rw [hmax]
    · rw [undo, if_neg (by simp only []; omega)]
      have hmax : max (st.step - ((n : ℕ) : ℤ)) 0 - 1 = max (st.step - ((n + 1 : ℕ) : ℤ)) 0 := by
        push_cast at *
        omega
      simp only []
      rw [hmax]

/-- Repeated `redo` saturates at the last entry: after `n` redos the
cursor is `min (step + n) (length - 1)` and the surface is that
snapshot. -/
lemma redo_iter {α : Type} [Inhabited α] (n : ℕ) (st : Hist α)
    (h0 : 0 ≤ st.step) (h1 : st.step ≤ (st.history.length : ℤ) - 1)
    (hs : st.surface = jsGetD st.history st.step) :
    redo^[n] st =
      ⟨st.history, min (st.step + n) ((st.history.length : ℤ) - 1),
       jsGetD st.history (min (st.step + n) ((st.history.length : ℤ) - 1))⟩ := by
  induction n with
  | zero =>
    obtain ⟨H, stp, sur⟩ := st
    simp only [Function.iterate_zero, id_eq] at *
    have hmin : min (stp + ((0 : ℕ) : ℤ)) ((H.length : ℤ) - 1) = stp := by
      push_cast; omega
    rw [hmin, ← hs]
  | succ n ih =>
    rw [Function.iterate_succ_apply', ih]
    by_cases hc : (st.history.length : ℤ) - 1 ≤ st.step + (n : ℤ)
    · rw [redo, if_pos (by simp only []; omega)]
      have hmin : min (st.step + ((n : ℕ) : ℤ)) ((st.history.length : ℤ) - 1) =
          min (st.step + ((n + 1 : ℕ) : ℤ)) ((st.history.length : ℤ) - 1) := by
        push_cast at *
        omega
      rw [hmin]
    · rw [redo, if_neg (by simp only []; omega)]
      have hmin : min (st.step + ((n : ℕ) : ℤ)) ((st.history.length : ℤ) - 1) + 1 =
          min (st.step + ((n + 1 : ℕ) : ℤ)) ((st.history.length : ℤ) - 1) := by
        push_cast at *
        omega
      simp only []
      rw [hmin]

/-- When the cursor sits on the last entry and the surface matches it,
`n` undos followed by `n` redos restore the exact state, for every `n`. -/
lemma undo_redo_roundtrip {α : Type} [Inhabited α] (st : Hist α) (n : ℕ)
    (h0 : 0 ≤ st.step) (h1 : st.step = (st.history.length : ℤ) - 1)
    (hs : st.surface = jsGetD st.history st.step) :
    redo^[n] (undo^[n] st) = st := by
  rw [undo_iter n st h0 (by omega) hs]
  rw [redo_iter n _ (by simp only []; omega) (by simp only []; omega) (by simp only [])]
  obtain ⟨H, stp, sur⟩ := st
  simp only [] at *
  have hmin : min (max (stp - (n : ℤ)) 0 + (n : ℤ)) ((H.length : ℤ) - 1) = stp := by
    omega
  rw [hmin, ← hs]

lemma jsGetD_last {α : Type} [Inhabited α] (l : List α) (hl : l ≠ []) :
    jsGetD l ((l.length : ℤ) - 1) = l.getLast hl := by
  have hlen : 1 ≤ l.length := List.length_pos.mpr hl
  rw [jsGetD, dif_pos (⟨by omega, by omega⟩ :
    0 ≤ (l.length : ℤ) - 1 ∧ ((l.length : ℤ) - 1).toNat < l.length)]
  rw [List.getLast_eq_get]
  congr 1
  apply Fin.ext
  show ((l.length : ℤ) - 1).toNat = l.length - 1
  omega

lemma cons_getLast_eq_getLastD {α : Type} (a : α) (l : List α) :
    (a :: l).getLast (List.cons_ne_nil a l) = l.getLastD a := by
  induction l generalizing a with
  | nil => rfl
  | cons b t ih =>
    rw [List.getLast_cons (List.cons_ne_nil b t), List.getLastD_cons]
    exact ih b

/-- The surface stored at the cursor of a canonical-shape state is the
last snapshot of the underlying sequence. -/
lemma stateOf_surface {α : Type} [Inhabited α] (L : List α) (hL : L ≠ []) :
    jsGetD (L.drop (L.length - 50)) (((min L.length 50 : ℕ) : ℤ) - 1) =
      L.getLast hL := by
  have hlen : 1 ≤ L.length := List.length_pos.mpr hL
  have hk1 : 1 ≤ min L.length 50 := le_min hlen (by norm_num)
  have hdl : (L.drop (L.length - 50)).length = min L.length 50 := by
    rw [List.length_drop]
    rcases le_total L.length 50 with hc | hc
    · rw [min_eq_left hc]; omega
    · rw [min_eq_right hc]; omega
  have hne : L.drop (L.length - 50) ≠ [] := by
    rw [← List.length_pos, hdl]; omega
  have hidx : ((min L.length 50 : ℕ) : ℤ) - 1 =
      (((L.drop (L.length - 50)).length : ℕ) : ℤ) - 1 := by rw [hdl]
  rw [hidx, jsGetD_last _ hne]
  rw [List.getLast_eq_getElem, List.getLast_eq_getElem, List.getElem_drop]
  congr 1
  rw [List.length_drop]
  omega

/-- C1: starting from the initial saved state and performing any `N ≤ 50`
committed mutations, `N` undos followed by `N` redos restore the entire
history state — in particular the raster surface and the cursor are
exactly what they were after the `N`-th commit. -/
theorem C1_undo_redo_roundtrip {α : Type} [Inhabited α] (s0 : α) (ss : List α)
    (hN : ss.length ≤ 50) :
    redo^[ss.length] (undo^[ss.length] (commitAll ss (initState s0))) =
      commitAll ss (initState s0) := by
  have h1 : initState s0 =
      (⟨[s0].drop ([s0].length - 50), ((min [s0].length 50 : ℕ) : ℤ) - 1, s0⟩ :
        Hist α) := by
    rw [initState_eq]; norm_num
  rw [h1, commitAll_stateOf ss [s0] (by simp) s0, List.singleton_append]
  have hLne : (s0 :: ss) ≠ [] := List.cons_ne_nil s0 ss
  have hlen1 : 1 ≤ (s0 :: ss).length := List.length_pos.mpr hLne
  have hk1 : 1 ≤ min (s0 :: ss).length 50 := le_min hlen1 (by norm_num)
  have hdl : ((s0 :: ss).drop ((s0 :: ss).length - 50)).length =
      min (s0 :: ss).length 50 := by
    rw [List.length_drop]
    rcases le_total (s0 :: ss).length 50 with hc | hc
    · rw [min_eq_left hc]; omega
    · rw [min_eq_right hc]; omega
  apply undo_redo_roundtrip
  · dsimp only
    omega
  · dsimp only
    rw [hdl]
  · dsimp only
    rw [stateOf_surface (s0 :: ss) hLne, cons_getLast_eq_getLastD]

/-- Witness for C1 with two concrete commits on a `ℕ`-surface. -/
theorem C1_undo_redo_roundtrip_witness :
    redo^[2] (undo^[2] (commitAll [1, 2] (initState (0 : ℕ)))) =
      commitAll [1, 2] (initState (0 : ℕ)) :=
  C1_undo_redo_roundtrip 0 [1, 2] (by norm_num)

/-- A freshly committed state always has its cursor at (or beyond) the
last entry, so the very next `redo` is a no-op. -/
lemma redo_commit {α : Type} [Inhabited α] (st : Hist α) (s : α)
    (h : -1 ≤ st.step) : redo (commit s st) = commit s st := by
  unfold commit saveState
  dsimp only
  have he : (0 : ℤ) ≤ st.step + 1 := by omega
  rw [jsSliceTo, if_pos he]
  have hlen : (st.history.take (st.step + 1).toNat).length =
      min (st.step + 1).toNat st.history.length := List.length_take _ _
  by_cases hc : 50 < (st.history.take (st.step + 1).toNat ++ [s]).length
  · rw [if_pos hc]
    rw [redo, if_pos ?_]
    dsimp only
    rw [List.length_drop, List.length_append, hlen, List.length_singleton]
    have htn : ((st.step + 1).toNat : ℤ) = st.step + 1 := by omega
    rw [List.length_append, hlen, List.length_singleton] at hc
    omega
  · rw [if_neg hc]
    rw [redo, if_pos ?_]
    dsimp only
    rw [List.length_append, hlen, List.length_singleton]
    have htn : ((st.step + 1).toNat : ℤ) = st.step + 1 := by omega
    omega

/-- C7: `redo()` after `undo()`-then-commit is a no-op (the redo branch was
discarded), and more generally `undo()` is a no-op at cursor `≤ 0` and
`redo()` is a no-op at the last entry. -/
theorem C7_redo_truncation {α : Type} [Inhabited α] :
    (∀ (st : Hist α) (s : α), -1 ≤ st.step →
        redo (commit s (undo st)) = commit s (undo st)) ∧
    (∀ st : Hist α, st.step ≤ 0 → undo st = st) ∧
    (∀ st : Hist α, (st.history.length : ℤ) - 1 ≤ st.step → redo st = st) := by
  refine ⟨?_, ?_, ?_⟩
  · intro st s h
    apply redo_commit
    rw [undo]
    split
    · exact h
    · dsimp only
      omega
  · intro st h
    rw [undo, if_pos h]
  · intro st h
    rw [redo, if_pos h]

/-- Witness for C7 at a concrete two-entry history. -/
theorem C7_redo_truncation_witness :
    redo (commit 5 (undo (⟨[0, 1], 1, 1⟩ : Hist ℕ))) =
      commit 5 (undo (⟨[0, 1], 1, 1⟩ : Hist ℕ)) ∧
    undo (⟨[0], 0, 0⟩ : Hist ℕ) = (⟨[0], 0, 0⟩ : Hist ℕ) ∧
    redo (⟨[0], 0, 0⟩ : Hist ℕ) = (⟨[0], 0, 0⟩ : Hist ℕ) :=
  ⟨C7_redo_truncation.1 ⟨[0, 1], 1, 1⟩ 5 (by norm_num),
   C7_redo_truncation.2.1 ⟨[0], 0, 0⟩ (by norm_num),
   C7_redo_truncation.2.2 ⟨[0], 0, 0⟩ (by norm_num)⟩

/-! ## Bounding-box lemmas -/

lemma foldl_min_le_init {β : Type} (g : β → F) (l : List β) (a : F) :
    l.foldl (fun m b => min m (g b)) a ≤ a := by
  induction l generalizing a with
  | nil => exact le_refl a
  | cons b t ih => exact le_trans (ih (min a (g b))) (min_le_left a (g b))

lemma foldl_min_le_mem {β : Type} (g : β → F) (l : List β) (a : F) {b : β}
    (hb : b ∈ l) : l.foldl (fun m c => min m (g c)) a ≤ g b := by
  induction l generalizing a with
  | nil => cases hb
  | cons c t ih =>
    rcases List.mem_cons.mp hb with rfl | h
    · exact le_trans (foldl_min_le_init g t (min a (g b))) (min_le_right a (g b))
    · exact ih (min a (g c)) h

lemma init_le_foldl_max {β : Type} (g : β → F) (l : List β) (a : F) :
    a ≤ l.foldl (fun m b => max m (g b)) a := by
  induction l generalizing a with
  | nil => exact le_refl a
  | cons b t ih => exact le_trans (le_max_left a (g b)) (ih (max a (g b)))

lemma mem_le_foldl_max {β : Type} (g : β → F) (l : List β) (a : F) {b : β}
    (hb : b ∈ l) : g b ≤ l.foldl (fun m c => max m (g c)) a := by
  induction l generalizing a with
  | nil => cases hb
  | cons c t ih =>
    rcases List.mem_cons.mp hb with rfl | h
    · exact le_trans (le_max_right a (g b)) (init_le_foldl_max g t (max a (g b)))
    · exact ih (max a (g c)) h

lemma foldl_min_shift {β : Type} (g : β → F) (d : F) (l : List β) (a : F) :
    l.foldl (fun m b => min m (g b + d)) (a + d) =
      l.foldl (fun m b => min m (g b)) a + d := by
  induction l generalizing a with
  | nil => rfl
  | cons b t ih =>
    rw [List.foldl_cons, List.foldl_cons, min_add_add_right, ih]

lemma foldl_max_shift {β : Type} (g : β → F) (d : F) (l : List β) (a : F) :
    l.foldl (fun m b => max m (g b + d)) (a + d) =
      l.foldl (fun m b => max m (g b)) a + d := by
  induction l generalizing a with
  | nil => rfl
  | cons b t ih =>
    rw [List.foldl_cons, List.foldl_cons, max_add_add_right, ih]

/-- C2 counterexample: a committed shape from (0,0) to (10,10) with stroke
width 6 stores the unexpanded corner box, not the minimal box expanded by
`strokeWidth / 2` the claim asserts. -/
theorem C2_bounds_cex :
    calculateShapeBounds (0 : ℚ) 0 10 10 Tool.line ≠
      expandBox (minimalBox [((0 : ℚ), 0), (10, 10)]) (6 / 2) := by
  simp only [calculateShapeBounds, expandBox, minimalBox, List.map_cons,
    List.map_nil, List.foldl_cons, List.foldl_nil, ne_eq, Bounds.mk.injEq]
  norm_num

/-- C2 (amended): stroke bounds equal the minimal point box expanded by
`strokeWidth / 2` and contain every stroke point; *shape* bounds are the
unexpanded corner box of the two drag points (no stroke padding) and
contain exactly those two endpoints; both recomputations commute with a
translation, and `moveObject` shifts stored bounds by the same delta, so
the relations persist after every move; text bounds anchor at the origin
with nonnegative width and height `lines * fontSize * 1.2`, covering the
vertical extent of every rendered line. -/
theorem C2_bounds_amended :
    (∀ (p0 : F × F) (rest : List (F × F)) (size : F),
        calculateStrokeBounds (p0 :: rest) size =
          expandBox (minimalBox (p0 :: rest)) (size / 2)) ∧
    (∀ (p0 : F × F) (rest : List (F × F)) (size : F), 0 ≤ size →
        ∀ p ∈ p0 :: rest, containsPoint (calculateStrokeBounds (p0 :: rest) size) p) ∧
    (∀ (sx sy ex ey : F) (tool : Tool),
        calculateShapeBounds sx sy ex ey tool = minimalBox [(sx, sy), (ex, ey)] ∧
        containsPoint (calculateShapeBounds sx sy ex ey tool) (sx, sy) ∧
        containsPoint (calculateShapeBounds sx sy ex ey tool) (ex, ey)) ∧
    (∀ (p0 : F × F) (rest : List (F × F)) (size dx dy : F),
        calculateStrokeBounds
            ((p0 :: rest).map fun p : F × F => (p.1 + dx, p.2 + dy)) size =
          shiftBounds (calculateStrokeBounds (p0 :: rest) size) dx dy) ∧
    (∀ (sx sy ex ey dx dy : F) (tool : Tool),
        calculateShapeBounds (sx + dx) (sy + dy) (ex + dx) (ey + dy) tool =
          shiftBounds (calculateShapeBounds sx sy ex ey tool) dx dy) ∧
    (∀ (measure : String → F) (text : String) (x y fontSize : F), 0 ≤ fontSize →
        0 ≤ (calculateTextBounds measure text x y fontSize).width ∧
        ∀ i : Fin (text.splitOn "\n").length,
          y ≤ y + ((i : ℕ) : F) * fontSize * 1.2 ∧
          y + ((i : ℕ) : F) * fontSize * 1.2 + fontSize ≤
            y + (calculateTextBounds measure text x y fontSize).height) := by
  refine ⟨?_, ?_, ?_, ?_, ?_, ?_⟩
  · intro p0 rest size
    simp only [calculateStrokeBounds, minimalBox, expandBox, List.foldl_map,
      Bounds.mk.injEq]
    exact ⟨trivial, trivial, by ring, by ring⟩
  · intro p0 rest size hsize p hp
    have hpad : 0 ≤ size / 2 := by positivity
    have h1 := foldl_min_le_mem Prod.fst (p0 :: rest) p0.1 hp
    have h2 := foldl_min_le_mem Prod.snd (p0 :: rest) p0.2 hp
    have h3 := mem_le_foldl_max Prod.fst (p0 :: rest) p0.1 hp
    have h4 := mem_le_foldl_max Prod.snd (p0 :: rest) p0.2 hp
    simp only [calculateStrokeBounds, containsPoint]
    refine ⟨by linarith, by linarith, by linarith, by linarith⟩
  · intro sx sy ex ey tool
    refine ⟨?_, ?_, ?_⟩
    · simp [minimalBox, calculateShapeBounds, min_self, max_self]
    · simp only [containsPoint, calculateShapeBounds]
      refine ⟨?_, ?_, ?_, ?_⟩ <;>
        linarith [min_le_left sx ex, le_max_left sx ex,
          min_le_left sy ey, le_max_left sy ey]
    · simp only [containsPoint, calculateShapeBounds]
      refine ⟨?_, ?_, ?_, ?_⟩ <;>
        linarith [min_le_right sx ex, le_max_right sx ex,
          min_le_right sy ey, le_max_right sy ey]
  · intro p0 rest size dx dy
    have hminx : ((p0.1 + dx, p0.2 + dy) ::
          rest.map fun p : F × F => (p.1 + dx, p.2 + dy)).foldl
          (fun m p => min m p.1) (p0.1 + dx) =
        ((p0 :: rest).foldl (fun m p => min m p.1) p0.1) + dx := by
      rw [List.foldl_cons, List.foldl_cons, List.foldl_map]
      dsimp only
      rw [min_self, min_self]
      exact foldl_min_shift Prod.fst dx rest p0.1
    have hminy : ((p0.1 + dx, p0.2 + dy) ::
          rest.map fun p : F × F => (p.1 + dx, p.2 + dy)).foldl
          (fun m p => min m p.2) (p0.2 + dy) =
        ((p0 :: rest).foldl (fun m p => min m p.2) p0.2) + dy := by
      rw [List.foldl_cons, List.foldl_cons, List.foldl_map]
      dsimp only
      rw [min_self, min_self]
      exact foldl_min_shift Prod.snd dy rest p0.2
    have hmaxx : ((p0.1 + dx, p0.2 + dy) ::
          rest.map fun p : F × F => (p.1 + dx, p.2 + dy)).foldl
          (fun m p => max m p.1) (p0.1 + dx) =
        ((p0 :: rest).foldl (fun m p => max m p.1) p0.1) + dx := by
      rw [List.foldl_cons, List.foldl_cons, List.foldl_map]
      dsimp only
      rw [max_self, max_self]
      exact foldl_max_shift Prod.fst dx rest p0.1
    have hmaxy : ((p0.1 + dx, p0.2 + dy) ::
          rest.map fun p : F × F => (p.1 + dx, p.2 + dy)).foldl
          (fun m p => max m p.2) (p0.2 + dy) =
        ((p0 :: rest).foldl (fun m p => max m p.2) p0.2) + dy := by
      rw [List.foldl_cons, List.foldl_cons, List.foldl_map]
      dsimp only
      rw [max_self, max_self]
      exact foldl_max_shift Prod.snd dy rest p0.2
    simp only [List.map_cons, calculateStrokeBounds, shiftBounds, Bounds.mk.injEq]
    rw [hminx, hminy, hmaxx, hmaxy]
    exact ⟨by ring, by ring, by ring, by ring⟩
  · intro sx sy ex ey dx dy tool
    simp only [calculateShapeBounds, shiftBounds, Bounds.mk.injEq,
      min_add_add_right, max_add_add_right]
    exact ⟨trivial, trivial, by ring, by ring⟩
  · intro measure text x y fontSize hf
    constructor
    · exact init_le_foldl_max measure (text.splitOn "\n") 0
    · intro i
      have hin : ((i : ℕ) : F) + 1 ≤ ((text.splitOn "\n").length : F) := by
        exact_mod_cast i.isLt
      have hi0 : (0 : F) ≤ ((i : ℕ) : F) := Nat.cast_nonneg (i : ℕ)
      constructor
      · nlinarith
      · simp only [calculateTextBounds]
        nlinarith [mul_nonneg hf (by linarith :
          (0 : F) ≤ ((text.splitOn "\n").length : F) - ((i : ℕ) : F) - 1)]

/-- Witness for C2 (amended) at concrete strokes, shapes and text. -/
theorem C2_bounds_amended_witness :
    containsPoint (calculateStrokeBounds [((0 : ℚ), 0), (10, 4)] 5) (10, 4) ∧
    (0 ≤ (calculateTextBounds (fun _ => (7 : ℚ)) "a\nb" 3 4 10).width ∧
      ∀ i : Fin (("a\nb".splitOn "\n").length),
        (4 : ℚ) ≤ 4 + ((i : ℕ) : ℚ) * 10 * 1.2 ∧
        (4 : ℚ) + ((i : ℕ) : ℚ) * 10 * 1.2 + 10 ≤
          4 + (calculateTextBounds (fun _ => (7 : ℚ)) "a\nb" 3 4 10).height) :=
  ⟨C2_bounds_amended.2.1 (0, 0) [(10, 4)] 5 (by norm_num) (10, 4) (by simp),
   C2_bounds_amended.2.2.2.2.2 (fun _ => (7 : ℚ)) "a\nb" 3 4 10 (by norm_num)⟩

/-! ## Renderer lemmas -/

lemma getD_map_range {β : Type} (f : ℕ → β) (i : ℕ) (d : β) (h : i < 10) :
    ((List.range 10).map f).getD i d = f i := by
  rw [List.getD_eq_getElem?_getD, List.getElem?_map, List.getElem?_range h]
  rfl

/-- C3 (amended): both arrow renderers draw the shaft plus two head
segments rotated `± π/6` (30°) from the shaft angle; the whiteboard
renderer's head length is `max 15 (strokeWidth * 3)` — exactly the spec's
formula — while the screen-annotation renderer's is `20 + strokeWidth * 2`
(so 30, not 15, at stroke width 5); with the genuine real trigonometric
functions each head segment's squared length equals the square of that
head length. -/
theorem C3_arrow_amended :
    (∀ (m : RealOps F) (w x1 y1 x2 y2 : F),
        drawArrowWb m w x1 y1 x2 y2 = specArrow m w x1 y1 x2 y2) ∧
    (∀ (m : RealOps F) (w x1 y1 x2 y2 : F),
        drawArrowApp m w x1 y1 x2 y2 =
          { shaft := ((x1, y1), (x2, y2))
            head1 := ((x2, y2),
              (x2 - (20 + w * 2) * m.cos (m.atan2 (y2 - y1) (x2 - x1) - m.pi / 6),
               y2 - (20 + w * 2) * m.sin (m.atan2 (y2 - y1) (x2 - x1) - m.pi / 6)))
            head2 := ((x2, y2),
              (x2 - (20 + w * 2) * m.cos (m.atan2 (y2 - y1) (x2 - x1) + m.pi / 6),
               y2 - (20 + w * 2) * m.sin (m.atan2 (y2 - y1) (x2 - x1) + m.pi / 6))) }) ∧
    (∀ w x1 y1 x2 y2 : ℝ,
        sqDist (drawArrowWb realOps w x1 y1 x2 y2).head1.1
            (drawArrowWb realOps w x1 y1 x2 y2).head1.2 = (max 15 (w * 3)) ^ 2 ∧
        sqDist (drawArrowWb realOps w x1 y1 x2 y2).head2.1
            (drawArrowWb realOps w x1 y1 x2 y2).head2.2 = (max 15 (w * 3)) ^ 2 ∧
        sqDist (drawArrowApp realOps w x1 y1 x2 y2).head1.1
            (drawArrowApp realOps w x1 y1 x2 y2).head1.2 = (20 + w * 2) ^ 2 ∧
        sqDist (drawArrowApp realOps w x1 y1 x2 y2).head2.1
            (drawArrowApp realOps w x1 y1 x2 y2).head2.2 = (20 + w * 2) ^ 2) ∧
    sqDist (drawArrowWb realOps (5 : ℝ) 0 0 100 0).head1.1
        (drawArrowWb realOps (5 : ℝ) 0 0 100 0).head1.2 = 15 ^ 2 := by
  refine ⟨fun m w x1 y1 x2 y2 => rfl, fun m w x1 y1 x2 y2 => rfl, ?_, ?_⟩
  · intro w x1 y1 x2 y2
    refine ⟨?_, ?_, ?_, ?_⟩
    · simp only [drawArrowWb, sqDist, realOps]
      linear_combination ((max 15 (w * 3) : ℝ) ^ 2) *
        Real.sin_sq_add_cos_sq (atan2R (y2 - y1) (x2 - x1) - Real.pi / 6)
    · simp only [drawArrowWb, sqDist, realOps]
      linear_combination ((max 15 (w * 3) : ℝ) ^ 2) *
        Real.sin_sq_add_cos_sq (atan2R (y2 - y1) (x2 - x1) + Real.pi / 6)
    · simp only [drawArrowApp, sqDist, realOps]
      linear_combination (((20 : ℝ) + w * 2) ^ 2) *
        Real.sin_sq_add_cos_sq (atan2R (y2 - y1) (x2 - x1) - Real.pi / 6)
    · simp only [drawArrowApp, sqDist, realOps]
      linear_combination (((20 : ℝ) + w * 2) ^ 2) *
        Real.sin_sq_add_cos_sq (atan2R (y2 - y1) (x2 - x1) + Real.pi / 6)
  · have hmax : (max 15 ((5 : ℝ) * 3)) = 15 := by norm_num
    simp only [drawArrowWb, sqDist, realOps, hmax]
    linear_combination
      ((15 : ℝ) ^ 2) * Real.sin_sq_add_cos_sq (atan2R (0 - 0) (100 - 0) - Real.pi / 6)

/-- C3 counterexample: for the screen-annotation app's arrow from (0,0) to
(100,0) with stroke width 5 the rendered trace differs from the spec's
(head squared length 900 = 30², not 15² = 225 = max(15, 5·3)²). -/
theorem C3_arrow_cex :
    drawArrowApp realOps (5 : ℝ) 0 0 100 0 ≠ specArrow realOps 5 0 0 100 0 ∧
    sqDist (drawArrowApp realOps (5 : ℝ) 0 0 100 0).head1.1
        (drawArrowApp realOps (5 : ℝ) 0 0 100 0).head1.2 = 30 ^ 2 ∧
    ((30 : ℝ) ^ 2 ≠ (max 15 (5 * 3) : ℝ) ^ 2) := by
  have hApp : sqDist (drawArrowApp realOps (5 : ℝ) 0 0 100 0).head1.1
      (drawArrowApp realOps (5 : ℝ) 0 0 100 0).head1.2 = 30 ^ 2 := by
    simp only [drawArrowApp, sqDist, realOps]
    linear_combination ((30 : ℝ) ^ 2) *
      Real.sin_sq_add_cos_sq (atan2R (0 - 0) (100 - 0) - Real.pi / 6)
  have hSpec : sqDist (specArrow realOps (5 : ℝ) 0 0 100 0).head1.1
      (specArrow realOps (5 : ℝ) 0 0 100 0).head1.2 = 15 ^ 2 := by
    have hmax : (max 15 ((5 : ℝ) * 3)) = 15 := by norm_num
    simp only [specArrow, sqDist, realOps, hmax]
    linear_combination ((15 : ℝ) ^ 2) *
      Real.sin_sq_add_cos_sq (atan2R (0 - 0) (100 - 0) - Real.pi / 6)
  refine ⟨?_, hApp, by norm_num⟩
  intro h
  rw [h, hSpec] at hApp
  norm_num at hApp

/-- C4 (amended): both star renderers centre at the midpoint of the drag
box and emit ten vertices alternating outer/inner radius at 36° steps from
the top, with inner = 0.4 × outer; the whiteboard renderer's outer radius
is half the diagonal of the drag box — the spec's formula, giving
50·√2 for a 100×100 box — while the screen-annotation renderer's is
`min(|dx|, |dy|) / 2`, giving 50 for the same box. -/
theorem C4_star_amended :
    (∀ (m : RealOps F) (x1 y1 x2 y2 : F),
        drawStarWb m x1 y1 x2 y2 = specStar m x1 y1 x2 y2) ∧
    (∀ (m : RealOps F) (x1 y1 x2 y2 : F),
        drawStarApp m x1 y1 x2 y2 =
          (List.range 10).map fun i : ℕ =>
            ((x1 + x2) / 2 +
              (if i % 2 = 0 then min |x2 - x1| |y2 - y1| / 2
               else min |x2 - x1| |y2 - y1| / 2 * 0.4) *
                m.cos (((i : F) * m.pi) / 5 - m.pi / 2),
             (y1 + y2) / 2 +
              (if i % 2 = 0 then min |x2 - x1| |y2 - y1| / 2
               else min |x2 - x1| |y2 - y1| / 2 * 0.4) *
                m.sin (((i : F) * m.pi) / 5 - m.pi / 2))) ∧
    (∀ (m : RealOps F) (x1 y1 x2 y2 : F),
        (drawStarApp m x1 y1 x2 y2).length = 10 ∧
        (drawStarWb m x1 y1 x2 y2).length = 10) ∧
    (∀ (x1 y1 x2 y2 : ℝ) (i : Fin 10),
        sqDist ((x1 + x2) / 2, (y1 + y2) / 2)
            ((drawStarApp realOps x1 y1 x2 y2).getD i (0, 0)) =
          (if (i : ℕ) % 2 = 0 then min |x2 - x1| |y2 - y1| / 2
           else min |x2 - x1| |y2 - y1| / 2 * 0.4) ^ 2 ∧
        sqDist ((x1 + x2) / 2, (y1 + y2) / 2)
            ((drawStarWb realOps x1 y1 x2 y2).getD i (0, 0)) =
          (if (i : ℕ) % 2 = 0 then Real.sqrt ((x2 - x1) ^ 2 + (y2 - y1) ^ 2) / 2
           else Real.sqrt ((x2 - x1) ^ 2 + (y2 - y1) ^ 2) / 2 * 0.4) ^ 2) ∧
    (∀ x1 y1 x2 y2 : ℝ,
        (Real.sqrt ((x2 - x1) ^ 2 + (y2 - y1) ^ 2) / 2) ^ 2 =
          ((x2 - x1) ^ 2 + (y2 - y1) ^ 2) / 4) ∧
    Real.sqrt (((100 : ℝ) - 0) ^ 2 + ((100 : ℝ) - 0) ^ 2) / 2 = 50 * Real.sqrt 2 := by
  refine ⟨?_, fun m x1 y1 x2 y2 => rfl, ?_, ?_, ?_, ?_⟩
  · intro m x1 y1 x2 y2
    simp only [drawStarWb, specStar]
    refine List.map_congr_left fun i _ => ?_
    by_cases hi : i % 2 = 0
    · simp [hi]
    · simp only [hi, if_false, Bool.false_eq_true, Prod.mk.injEq]
      constructor <;> ring_nf
  · intro m x1 y1 x2 y2
    constructor <;> simp [drawStarApp, drawStarWb]
  · intro x1 y1 x2 y2 i
    constructor
    · simp only [drawStarApp, realOps]
      rw [getD_map_range _ _ _ i.isLt]
      by_cases hi : (i : ℕ) % 2 = 0
      · simp only [if_pos hi, sqDist]
        linear_combination ((min |x2 - x1| |y2 - y1| / 2) ^ 2) *
          Real.sin_sq_add_cos_sq (((i : ℕ) : ℝ) * Real.pi / 5 - Real.pi / 2)
      · simp only [if_neg hi, sqDist]
        linear_combination ((min |x2 - x1| |y2 - y1| / 2 * 0.4) ^ 2) *
          Real.sin_sq_add_cos_sq (((i : ℕ) : ℝ) * Real.pi / 5 - Real.pi / 2)
    · simp only [drawStarWb, realOps]
      rw [getD_map_range _ _ _ i.isLt]
      by_cases hi : (i : ℕ) % 2 = 0
      · simp only [if_pos hi, sqDist]
        linear_combination ((Real.sqrt ((x2 - x1) ^ 2 + (y2 - y1) ^ 2) / 2) ^ 2) *
          Real.sin_sq_add_cos_sq (((i : ℕ) : ℝ) * Real.pi / 5 - Real.pi / 2)
      · simp only [if_neg hi, sqDist]
        linear_combination
          ((Real.sqrt ((x2 - x1) ^ 2 + (y2 - y1) ^ 2) / 2 * 0.4) ^ 2) *
          Real.sin_sq_add_cos_sq (((i : ℕ) : ℝ) * Real.pi / 5 - Real.pi / 2)
  · intro x1 y1 x2 y2
    rw [div_pow, Real.sq_sqrt (by positivity)]
    norm_num
  · rw [show ((100 : ℝ) - 0) ^ 2 + ((100 : ℝ) - 0) ^ 2 = (100 : ℝ) ^ 2 * 2 by norm_num]
    rw [Real.sqrt_mul (by positivity), Real.sqrt_sq (by norm_num)]
    ring

/-- C4 counterexample: for a 100×100 drag box the screen-annotation star's
top vertex is 50 from the centre (squared distance 2500), not the claimed
half-diagonal 50·√2 (squared 5000), and its trace differs from the spec's
star. -/
theorem C4_star_cex :
    drawStarApp realOps (0 : ℝ) 0 100 100 ≠ specStar realOps 0 0 100 100 ∧
    sqDist (50, 50) ((drawStarApp realOps (0 : ℝ) 0 100 100).getD 0 (0, 0)) =
      50 ^ 2 ∧
    ((50 : ℝ) ^ 2 ≠ (50 * Real.sqrt 2) ^ 2) := by
  have habs : |(100 : ℝ) - 0| = 100 := by norm_num
  have hApp : sqDist ((50 : ℝ), 50)
      ((drawStarApp realOps (0 : ℝ) 0 100 100).getD 0 (0, 0)) = 50 ^ 2 := by
    simp only [drawStarApp, realOps]
    rw [getD_map_range _ _ _ (by norm_num)]
    rw [habs, min_self]
    simp only [if_pos (by norm_num : (0 : ℕ) % 2 = 0), if_true, sqDist]
    linear_combination ((50 : ℝ) ^ 2) *
      Real.sin_sq_add_cos_sq (((0 : ℕ) : ℝ) * Real.pi / 5 - Real.pi / 2)
  have hSpec : sqDist ((50 : ℝ), 50)
      ((specStar realOps (0 : ℝ) 0 100 100).getD 0 (0, 0)) = 5000 := by
    simp only [specStar, realOps]
    rw [getD_map_range _ _ _ (by norm_num)]
    simp only [if_pos (by norm_num : (0 : ℕ) % 2 = 0), if_true, sqDist]
    have hr : (Real.sqrt (((100 : ℝ) - 0) ^ 2 + ((100 : ℝ) - 0) ^ 2) / 2) ^ 2 =
        5000 := by
      rw [div_pow, Real.sq_sqrt (by positivity)]
      norm_num
    linear_combination ((Real.sqrt (((100 : ℝ) - 0) ^ 2 + ((100 : ℝ) - 0) ^ 2) / 2) ^ 2) *
      Real.sin_sq_add_cos_sq (((0 : ℕ) : ℝ) * Real.pi / 5 - Real.pi / 2) + hr
  refine ⟨?_, hApp, ?_⟩
  · intro h
    have h2 := congrArg (fun l => sqDist ((50 : ℝ), 50) (l.getD 0 (0, 0))) h
    simp only [] at h2
    rw [hApp, hSpec] at h2
    norm_num at h2
  · have h2 : ((50 : ℝ) * Real.sqrt 2) ^ 2 = 5000 := by
      rw [mul_pow, Real.sq_sqrt (by norm_num : (0 : ℝ) ≤ 2)]
      norm_num
    rw [h2]
    norm_num
